import Mathlib

/-!
Shallow embedding of the tabular Q-learning agent of `tabular_qlearner.py`,
the core of this repository, together with theorems about its behaviour.

Modelling conventions:
* Python floats are modelled as rationals (exact arithmetic).
* The two nested `collections.defaultdict` levels of `self._q_values` are
  modelled as association lists whose read operation inserts the default
  entry on a miss, exactly as `defaultdict.__getitem__` does; insertion
  order (append at the end on a miss) mirrors Python dict insertion order.
* The inner dictionary is keyed by `Option Nat` because Python stores
  `self._prev_action`, which can be `None`, as a dictionary key.
* The `str(...)` state-key encoding is modelled by the encoded structure
  itself: two keys are equal exactly when the encoded observation
  structures are equal.
* The two numpy random draws of `_epsilon_greedy` (the uniform sample
  compared against epsilon, and the sample used by `np.random.choice`)
  are passed in as explicit inputs `u` and `r`.
* A Python call that raises (empty legal-action list) is modelled by the
  step function returning `none`; a normal return of Python `None` at the
  terminal learning step is the value `some (none, agent)`.
-/

namespace TabularQ

/-- A state key, the Python value `str(...)` computed at the top of `step`:
for the decentralized encoding the singleton list holding the owning
player's observation vector, for the centralized encoding the list of all
players' observation vectors. -/
abbrev StateKey := List (List ℚ)

/-- Inner level of `_q_values`: one `valuedict`, i.e. `defaultdict(float)`
from action to value estimate. -/
abbrev InnerQ := List (Option Nat × ℚ)

/-- Outer level of `_q_values`: `defaultdict(valuedict)` from state key to
inner action-value dictionary. -/
abbrev QTable := List (StateKey × InnerQ)

/-- Pure lookup in the inner dictionary, defaulting to `0` (the
`defaultdict(float)` default) without inserting. -/
def innerLookup : InnerQ → Option Nat → ℚ
  | [], _ => 0
  | p :: rest, a => if p.1 = a then p.2 else innerLookup rest a

/-- `defaultdict(float).__getitem__`: returns the stored value, inserting
the default entry `(a, 0)` at the end on a miss. -/
def innerRead : InnerQ → Option Nat → ℚ × InnerQ
  | [], a => (0, [(a, 0)])
  | p :: rest, a =>
      if p.1 = a then (p.2, p :: rest)
      else
        let r := innerRead rest a
        (r.1, p :: r.2)

/-- `dict.__setitem__` on the inner dictionary: overwrites the first entry
with the given key, appending at the end if the key is absent. -/
def innerWrite : InnerQ → Option Nat → ℚ → InnerQ
  | [], a, v => [(a, v)]
  | p :: rest, a, v =>
      if p.1 = a then (a, v) :: rest else p :: innerWrite rest a v

/-- Pure lookup of the inner dictionary stored at a state key, defaulting
to the empty dictionary without inserting. -/
def outerLookup : QTable → StateKey → InnerQ
  | [], _ => []
  | p :: rest, k => if p.1 = k then p.2 else outerLookup rest k

/-- `defaultdict(valuedict).__getitem__`: returns the inner dictionary,
inserting an empty one at the end on a miss. -/
def outerRead : QTable → StateKey → InnerQ × QTable
  | [], k => ([], [(k, [])])
  | p :: rest, k =>
      if p.1 = k then (p.2, p :: rest)
      else
        let r := outerRead rest k
        (r.1, p :: r.2)

/-- Overwrites the inner dictionary stored at a state key (the write-back
of an in-place mutation of the inner dictionary obtained by reference). -/
def outerWrite : QTable → StateKey → InnerQ → QTable
  | [], k, d => [(k, d)]
  | p :: rest, k, d =>
      if p.1 = k then (k, d) :: rest else p :: outerWrite rest k d

/-- Pure lookup of `self._q_values[k][a]` with the defaults of both
dictionary levels, without inserting. -/
def QTable.lookup (t : QTable) (k : StateKey) (a : Option Nat) : ℚ :=
  innerLookup (outerLookup t k) a

/-- The effect of the Python expression `self._q_values[k][a]`: both
dictionary levels insert their default on a miss. Returns the value read
and the table afterwards. -/
def QTable.read (t : QTable) (k : StateKey) (a : Option Nat) : ℚ × QTable :=
  let od := outerRead t k
  let ir := innerRead od.1 a
  (ir.1, outerWrite od.2 k ir.2)

/-- The effect of the Python statement `self._q_values[k][a] = v`. -/
def QTable.write (t : QTable) (k : StateKey) (a : Option Nat) (v : ℚ) : QTable :=
  let od := outerRead t k
  outerWrite od.2 k (innerWrite od.1 a v)

/-- The list comprehension `[self._q_values[k][a] for a in actions]`:
reads every action in order, threading the insert-on-miss mutations. -/
def QTable.readAll (t : QTable) (k : StateKey) (actions : List Nat) : List ℚ × QTable :=
  match actions with
  | [] => ([], t)
  | a :: rest =>
      let r1 := QTable.read t k (some a)
      let rr := QTable.readAll r1.2 k rest
      (r1.1 :: rr.1, rr.2)

/-- Python `max(list)` on a non-empty list (the value on `[]` is junk;
Python raises there and the code only reaches it on non-empty lists). -/
def listMax : List ℚ → ℚ
  | [] => 0
  | x :: xs => xs.foldl max x

/-- Index of the first occurrence of a value in a list (the value on a
list not containing `x` is junk). -/
def firstIdx : List ℚ → ℚ → Nat
  | [], _ => 0
  | y :: ys, x => if y = x then 0 else firstIdx ys x + 1

/-- `np.argmax`: the index of the first occurrence of the maximum. -/
def argmaxIdx (l : List ℚ) : Nat := firstIdx l (listMax l)

/-- `probs = np.zeros(n); probs[idxs] = v`: the length-`n` vector that is
`v` on the listed indices and `0` elsewhere. -/
def assignAt (n : Nat) (idxs : List Nat) (v : ℚ) : List ℚ :=
  (List.range n).map (fun i => if i ∈ idxs then v else 0)

/-- Helper for `sampleIndex`: walks the probability vector accumulating
mass until the uniform sample `r` is covered. -/
def sampleAux : List ℚ → ℚ → ℚ → Nat → Nat
  | [], _, _, i => i
  | p :: ps, r, acc, i =>
      if r < acc + p then i else sampleAux ps r (acc + p) (i + 1)

/-- `np.random.choice(range(n), p=probs)` driven by a uniform sample
`r` in `[0, 1)`: inverse-transform sampling over the vector. -/
def sampleIndex (probs : List ℚ) (r : ℚ) : Nat := sampleAux probs r 0 0

/-- `np.array(xs, dtype=int)` elementwise: float-to-int conversion
truncating toward zero. -/
def ratTrunc (q : ℚ) : ℤ := Int.tdiv q.num (q.den : ℤ)

/-- Exploration schedule interface of `rl_tools` (an external collaborator
of this repository, not part of its sources): a stateful source of
exploration probabilities; `value` is the current probability and `step`
advances the source exactly once and returns the new probability. -/
structure Schedule where
  seq : Nat → ℚ
  idx : Nat

/-- Current value of the schedule (`schedule.value`). -/
def Schedule.value (s : Schedule) : ℚ := s.seq s.idx

/-- Advance the schedule once and return the new value (`schedule.step()`). -/
def Schedule.step (s : Schedule) : ℚ × Schedule :=
  (s.seq (s.idx + 1), { s with idx := s.idx + 1 })

/-- `rl_tools.ConstantSchedule(v)`. -/
def constantSchedule (v : ℚ) : Schedule := { seq := fun _ => v, idx := 0 }

/-- `rl_environment.TimeStep`, restricted to the fields the agent reads:
per-player observation vectors, per-player legal-action lists, the reward
vector (or `None`), and the terminal flag `time_step.last()`. -/
structure TimeStep where
  observations_info_state : List (List ℚ)
  observations_legal_actions : List (List Nat)
  rewards : Option (List ℚ)
  is_last : Bool

/-- `rl_agent.StepOutput`. -/
structure StepOutput where
  action : Option Nat
  probs : Option (List ℚ)
deriving DecidableEq

/-- The `QLearner` instance state: every attribute set by `__init__`. -/
structure QLearner where
  player_id : Nat
  num_actions : Nat
  step_size : ℚ
  epsilon_schedule : Schedule
  epsilon : ℚ
  discount_factor : ℚ
  centralized : Bool
  q_values : QTable
  prev_info_state : Option StateKey
  last_loss_value : Option ℚ
  prev_action : Option Nat
  rules : List (List ℤ → ℚ)

/-- `QLearner.__init__`: assigns every attribute; it performs no
validation of any argument. -/
def QLearner.init (player_id : Nat) (num_actions : Nat) (step_size : ℚ)
    (epsilon_schedule : Schedule) (discount_factor : ℚ)
    (rules : List (List ℤ → ℚ)) (centralized : Bool) : QLearner :=
  { player_id := player_id
    num_actions := num_actions
    step_size := step_size
    epsilon_schedule := epsilon_schedule
    epsilon := epsilon_schedule.value
    discount_factor := discount_factor
    centralized := centralized
    q_values := []
    prev_info_state := none
    last_loss_value := none
    prev_action := none
    rules := rules }

/-- `QLearner._epsilon_greedy`. Inputs `u` (the `np.random.random()`
draw) and `r` (the uniform sample driving `np.random.choice`) make the
two random draws explicit. On an empty legal-action list Python raises
(`ZeroDivisionError` in the exploration branch, `ValueError` from
`np.argmax` in the greedy branch); this is modelled as `none`. -/
def epsilonGreedy (num_actions : Nat) (q : QTable) (info_state : StateKey)
    (legal_actions : List Nat) (epsilon u r : ℚ) :
    Option (Nat × List ℚ × QTable) :=
  if u < epsilon then
    match legal_actions with
    | [] => none
    | _ :: _ =>
        let probs := assignAt num_actions legal_actions (1 / (legal_actions.length : ℚ))
        some (sampleIndex probs r, probs, q)
  else
    match legal_actions with
    | [] => none
    | _ :: _ =>
        let rq := QTable.readAll q info_state legal_actions
        let best_action := legal_actions.getD (argmaxIdx rq.1) 0
        let probs := assignAt num_actions [best_action] 1
        some (sampleIndex probs r, probs, rq.2)

/-- `QLearner._get_action_reward`: `0.0` when the time step carries no
rewards; otherwise the player's environment reward plus, when rules are
configured, the sum of every rule applied to the integer conversion of a
slice of player 0's observation vector (`board[9:18]` for player 0,
`board[18:]` otherwise). -/
def QLearner.getActionReward (ag : QLearner) (ts : TimeStep) : ℚ :=
  match ts.rewards with
  | none => 0
  | some rs =>
      let extra : ℚ :=
        if ag.rules.isEmpty then 0
        else
          let board := ts.observations_info_state.getD 0 []
          let current_player_board :=
            if ag.player_id = 0 then (board.drop 9).take 9 else board.drop 18
          (ag.rules.map (fun rule => rule (current_player_board.map ratTrunc))).foldl
            (· + ·) 0
      rs.getD ag.player_id 0 + extra

/-- The state key computed at the top of `step`:
`str(time_step.observations["info_state"])` when centralized, else
`str(time_step.observations["info_state"][self._player_id])`. -/
def infoStateKey (centralized : Bool) (obs : List (List ℚ)) (player_id : Nat) : StateKey :=
  if centralized then obs else [obs.getD player_id []]

/-- The TD target of the learn phase of `step`, together with the table
after the reads it performs: the shaped reward at a terminal step, else
the shaped reward plus `discount_factor` times the maximum stored
estimate over the current state's legal actions (reads that insert
missing entries with value `0`). -/
def QLearner.tdTarget (ag : QLearner) (ts : TimeStep) (info_state : StateKey)
    (legal_actions : List Nat) : ℚ × QTable :=
  let reward := ag.getActionReward ts
  if ts.is_last then (reward, ag.q_values)
  else
    let rq := QTable.readAll ag.q_values info_state legal_actions
    (reward + ag.discount_factor * listMax rq.1, rq.2)

/-- The learn phase of `step` (lines 183-202 of `tabular_qlearner.py`),
run only when a pending transition exists and the call is a training
call: the TD update at `(self._prev_info_state, self._prev_action)`, the
loss recording (a fresh read of the just-written entry minus the target)
and the schedule advance. -/
def QLearner.learnUpdate (ag : QLearner) (ts : TimeStep) (info_state : StateKey)
    (legal_actions : List Nat) : QLearner :=
  let tq := ag.tdTarget ts info_state legal_actions
  let pk := ag.prev_info_state.getD []
  let rd := QTable.read tq.2 pk ag.prev_action
  let newv := rd.1 + ag.step_size * (tq.1 - rd.1)
  let q4 := QTable.write rd.2 pk ag.prev_action newv
  let rd2 := QTable.read q4 pk ag.prev_action
  let sch := ag.epsilon_schedule.step
  { ag with q_values := rd2.2
            last_loss_value := some (rd2.1 - tq.1)
            epsilon := sch.1
            epsilon_schedule := sch.2 }

/-- `QLearner.step`. The result is `none` when the Python call raises,
`some (none, agent)` when it returns the bare `None` of the terminal
learning path, and `some (some output, agent)` otherwise. -/
def QLearner.step (ag : QLearner) (ts : TimeStep) (is_evaluation : Bool)
    (top1 : Bool) (u r : ℚ) : Option (Option StepOutput × QLearner) :=
  let info_state := infoStateKey ag.centralized ts.observations_info_state ag.player_id
  let legal_actions := ts.observations_legal_actions.getD ag.player_id []
  let act :=
    if ts.is_last then some ((none : Option Nat), (none : Option (List ℚ)), ag.q_values)
    else
      match epsilonGreedy ag.num_actions ag.q_values info_state legal_actions
          (if is_evaluation then 0 else ag.epsilon) u r with
      | none => none
      | some (a, probs, q1) =>
          some (some (if top1 || is_evaluation then argmaxIdx probs else a), some probs, q1)
  match act with
  | none => none
  | some (action, probs, q1) =>
      if ag.prev_info_state.isSome && !is_evaluation then
        let ag2 := QLearner.learnUpdate { ag with q_values := q1 } ts info_state legal_actions
        if ts.is_last then
          some (none, { ag2 with prev_info_state := none })
        else
          some (some ⟨action, probs⟩,
                { ag2 with prev_info_state := some info_state, prev_action := action })
      else
        if is_evaluation then
          some (some ⟨action, probs⟩, { ag with q_values := q1 })
        else
          some (some ⟨action, probs⟩,
                { ag with q_values := q1
                          prev_info_state := some info_state
                          prev_action := action })

/-! ### Lemmas about the defaultdict model -/

theorem innerRead_fst (d : InnerQ) (a : Option Nat) :
    (innerRead d a).1 = innerLookup d a := by
  induction d with
  | nil => rfl
  | cons p rest ih =>
      by_cases h : p.1 = a <;> simp [innerRead, innerLookup, h, ih]

theorem innerRead_lookup (d : InnerQ) (a b : Option Nat) :
    innerLookup (innerRead d a).2 b = innerLookup d b := by
  induction d with
  | nil => by_cases h : a = b <;> simp [innerRead, innerLookup, h]
  | cons p rest ih =>
      by_cases h : p.1 = a <;> simp [innerRead, innerLookup, h, ih]

theorem innerWrite_self (d : InnerQ) (a : Option Nat) (v : ℚ) :
    innerLookup (innerWrite d a v) a = v := by
  induction d with
  | nil => simp [innerWrite, innerLookup]
  | cons p rest ih =>
      by_cases h : p.1 = a <;> simp [innerWrite, innerLookup, h, ih]

theorem innerWrite_other (d : InnerQ) (a b : Option Nat) (v : ℚ) (hba : b ≠ a) :
    innerLookup (innerWrite d a v) b = innerLookup d b := by
  induction d with
  | nil => simp [innerWrite, innerLookup, Ne.symm hba]
  | cons p rest ih =>
      by_cases h : p.1 = a
      · simp [innerWrite, innerLookup, h, Ne.symm hba]
      · by_cases hb : p.1 = b <;> simp [innerWrite, innerLookup, h, hb, hba, ih]

theorem outerRead_fst (t : QTable) (k : StateKey) :
    (outerRead t k).1 = outerLookup t k := by
  induction t with
  | nil => rfl
  | cons p rest ih =>
      by_cases h : p.1 = k <;> simp [outerRead, outerLookup, h, ih]

theorem outerRead_lookup (t : QTable) (k k' : StateKey) :
    outerLookup (outerRead t k).2 k' = outerLookup t k' := by
  induction t with
  | nil => by_cases h : k = k' <;> simp [outerRead, outerLookup, h]
  | cons p rest ih =>
      by_cases h : p.1 = k <;> simp [outerRead, outerLookup, h, ih]

theorem outerWrite_self (t : QTable) (k : StateKey) (d : InnerQ) :
    outerLookup (outerWrite t k d) k = d := by
  induction t with
  | nil => simp [outerWrite, outerLookup]
  | cons p rest ih =>
      by_cases h : p.1 = k <;> simp [outerWrite, outerLookup, h, ih]

theorem outerWrite_other (t : QTable) (k k' : StateKey) (d : InnerQ) (hk : k' ≠ k) :
    outerLookup (outerWrite t k d) k' = outerLookup t k' := by
  induction t with
  | nil => simp [outerWrite, outerLookup, Ne.symm hk]
  | cons p rest ih =>
      by_cases h : p.1 = k
      · simp [outerWrite, outerLookup, h, Ne.symm hk]
      · by_cases hb : p.1 = k' <;> simp [outerWrite, outerLookup, h, hb, hk, ih]

theorem QTable.read_fst (t : QTable) (k : StateKey) (a : Option Nat) :
    (QTable.read t k a).1 = QTable.lookup t k a := by
  simp [QTable.read, QTable.lookup, innerRead_fst, outerRead_fst]

theorem QTable.read_lookup (t : QTable) (k : StateKey) (a : Option Nat)
    (k' : StateKey) (a' : Option Nat) :
    QTable.lookup (QTable.read t k a).2 k' a' = QTable.lookup t k' a' := by
  by_cases hk : k' = k
  · subst hk
    simp [QTable.read, QTable.lookup, outerWrite_self, outerRead_fst, innerRead_lookup]
  · simp [QTable.read, QTable.lookup, outerWrite_other _ _ _ _ hk, outerRead_lookup]

theorem QTable.write_self (t : QTable) (k : StateKey) (a : Option Nat) (v : ℚ) :
    QTable.lookup (QTable.write t k a v) k a = v := by
  simp [QTable.write, QTable.lookup, outerWrite_self, outerRead_fst, innerWrite_self]

theorem QTable.write_other (t : QTable) (k : StateKey) (a : Option Nat) (v : ℚ)
    (k' : StateKey) (a' : Option Nat) (h : ¬(k' = k ∧ a' = a)) :
    QTable.lookup (QTable.write t k a v) k' a' = QTable.lookup t k' a' := by
  by_cases hk : k' = k
  · subst hk
    have ha : a' ≠ a := fun hh => h ⟨rfl, hh⟩
    simp [QTable.write, QTable.lookup, outerWrite_self, outerRead_fst,
      innerWrite_other _ _ _ _ ha]
  · simp [QTable.write, QTable.lookup, outerWrite_other _ _ _ _ hk, outerRead_lookup]

theorem QTable.readAll_fst (actions : List Nat) (t : QTable) (k : StateKey) :
    (QTable.readAll t k actions).1 = actions.map (fun a => QTable.lookup t k (some a)) := by
  induction actions generalizing t with
  | nil => rfl
  | cons a rest ih =>
      simp only [QTable.readAll, List.map, QTable.read_fst, ih, List.cons.injEq, true_and]
      exact List.map_congr_left (fun b _ => QTable.read_lookup t k (some a) k (some b))

theorem QTable.readAll_lookup (actions : List Nat) (t : QTable) (k : StateKey)
    (k' : StateKey) (a' : Option Nat) :
    QTable.lookup (QTable.readAll t k actions).2 k' a' = QTable.lookup t k' a' := by
  induction actions generalizing t with
  | nil => rfl
  | cons a rest ih => simp [QTable.readAll, ih, QTable.read_lookup]

theorem epsilonGreedy_lookup (num_actions : Nat) (q : QTable) (info_state : StateKey)
    (legal_actions : List Nat) (epsilon u r : ℚ) (res : Nat × List ℚ × QTable)
    (h : epsilonGreedy num_actions q info_state legal_actions epsilon u r = some res)
    (k' : StateKey) (a' : Option Nat) :
    QTable.lookup res.2.2 k' a' = QTable.lookup q k' a' := by
  unfold epsilonGreedy at h
  by_cases hu : u < epsilon
  · simp only [hu, if_true] at h
    cases legal_actions with
    | nil => exact absurd h (by simp)
    | cons a rest =>
        simp only at h
        cases h
        rfl
  · simp only [hu, if_false] at h
    cases legal_actions with
    | nil => exact absurd h (by simp)
    | cons a rest =>
        simp only at h
        cases h
        exact QTable.readAll_lookup _ _ _ _ _

/-! ### Lemmas about max, argmax, probability vectors and sampling -/

theorem foldl_max_init (l : List ℚ) (x : ℚ) : x ≤ l.foldl max x := by
  induction l generalizing x with
  | nil => exact le_refl x
  | cons y ys ih => exact le_trans (le_max_left x y) (ih (max x y))

theorem foldl_max_of_mem (l : List ℚ) (y : ℚ) (hy : y ∈ l) :
    ∀ x, y ≤ l.foldl max x := by
  induction hy with
  | head rest => exact fun x => le_trans (le_max_right x y) (foldl_max_init rest _)
  | tail b hmem ih => exact fun x => ih (max x b)

theorem foldl_max_mem (l : List ℚ) (x : ℚ) :
    l.foldl max x = x ∨ l.foldl max x ∈ l := by
  induction l generalizing x with
  | nil => exact Or.inl rfl
  | cons y ys ih =>
      rcases ih (max x y) with h | h
      · rcases max_choice x y with hm | hm
        · exact Or.inl (by rw [List.foldl_cons, h, hm])
        · exact Or.inr (by rw [List.foldl_cons, h, hm]; exact List.mem_cons_self y ys)
      · exact Or.inr (List.mem_cons_of_mem y h)

theorem le_listMax (l : List ℚ) (y : ℚ) (hy : y ∈ l) : y ≤ listMax l := by
  cases l with
  | nil => cases hy
  | cons x xs =>
      rcases List.mem_cons.mp hy with h | h
      · subst h; exact foldl_max_init xs y
      · exact foldl_max_of_mem xs y h x

theorem listMax_mem (l : List ℚ) (hl : l ≠ []) : listMax l ∈ l := by
  cases l with
  | nil => exact absurd rfl hl
  | cons x xs =>
      have hfold : listMax (x :: xs) = xs.foldl max x := rfl
      rcases foldl_max_mem xs x with h | h
      · rw [hfold, h]; exact List.mem_cons_self x xs
      · rw [hfold]; exact List.mem_cons_of_mem x h

theorem firstIdx_lt_length (l : List ℚ) (x : ℚ) (hx : x ∈ l) :
    firstIdx l x < l.length := by
  induction l with
  | nil => cases hx
  | cons y ys ih =>
      by_cases h : y = x
      · simp [firstIdx, h]
      · have hx' : x ∈ ys := by
          rcases List.mem_cons.mp hx with hh | hh
          · exact absurd hh.symm h
          · exact hh
        simp only [firstIdx, h, if_false, List.length_cons]
        exact Nat.succ_lt_succ (ih hx')

theorem getD_firstIdx (l : List ℚ) (x : ℚ) (hx : x ∈ l) :
    l.getD (firstIdx l x) 0 = x := by
  induction l with
  | nil => cases hx
  | cons y ys ih =>
      by_cases h : y = x
      · simp [firstIdx, h]
      · have hx' : x ∈ ys := by
          rcases List.mem_cons.mp hx with hh | hh
          · exact absurd hh.symm h
          · exact hh
        simp only [firstIdx, h, if_false, List.getD_cons_succ]
        exact ih hx'

theorem firstIdx_first (l : List ℚ) (x : ℚ) (m : Nat) (hm : m < firstIdx l x) :
    l.getD m 0 ≠ x := by
  induction l generalizing m with
  | nil => simp [firstIdx] at hm
  | cons y ys ih =>
      by_cases h : y = x
      · simp [firstIdx, h] at hm
      · cases m with
        | zero => simpa using h
        | succ m' =>
            simp only [firstIdx, h, if_false] at hm
            simp only [List.getD_cons_succ]
            exact ih m' (Nat.lt_of_succ_lt_succ hm)

theorem getD_mem {α : Type} (l : List α) (i : Nat) (d : α) (hi : i < l.length) :
    l.getD i d ∈ l := by
  rw [List.getD_eq_getElem?_getD, List.getElem?_eq_getElem hi]
  exact List.getElem_mem hi

theorem getD_map_at (l : List Nat) (f : Nat → ℚ) (i : Nat) (hi : i < l.length) :
    (l.map f).getD i 0 = f (l.getD i 0) := by
  simp [List.getD_eq_getElem?_getD, List.getElem?_map, List.getElem?_eq_getElem hi]

theorem assignAt_length (n : Nat) (idxs : List Nat) (v : ℚ) :
    (assignAt n idxs v).length = n := by
  simp [assignAt]

theorem assignAt_getD (n : Nat) (idxs : List Nat) (v : ℚ) (i : Nat) :
    (assignAt n idxs v).getD i 0 = if i < n ∧ i ∈ idxs then v else 0 := by
  by_cases hi : i < n
  · have : (List.range n)[i]? = some i := List.getElem?_range hi
    simp [assignAt, List.getD_eq_getElem?_getD, List.getElem?_map, this, hi]
  · have hlen : (assignAt n idxs v).length ≤ i := by
      rw [assignAt_length]; exact Nat.le_of_not_lt hi
    rw [List.getD_eq_getElem?_getD, List.getElem?_eq_none hlen]
    simp [hi]

theorem assignAt_sum (n : Nat) (idxs : List Nat) (v : ℚ)
    (hnd : idxs.Nodup) (hsub : ∀ a ∈ idxs, a < n) :
    (assignAt n idxs v).sum = (idxs.length : ℚ) * v := by
  have h1 : (assignAt n idxs v).sum
      = ∑ i in Finset.range n, if i ∈ idxs then v else 0 := rfl
  have h2 : (Finset.range n).filter (fun i => i ∈ idxs) = idxs.toFinset := by
    ext i
    simp only [Finset.mem_filter, Finset.mem_range, List.mem_toFinset]
    exact ⟨fun h => h.2, fun h => ⟨hsub i h, h⟩⟩
  rw [h1, ← Finset.sum_filter, h2, Finset.sum_const,
      List.toFinset_card_of_nodup hnd, nsmul_eq_mul]

theorem sampleAux_onehot (l : List ℚ) (r : ℚ) (j i : Nat)
    (hr0 : 0 ≤ r) (hr1 : r < 1)
    (hz : ∀ m, m < j → l.getD m 0 = 0) (h1 : l.getD j 0 = 1) (hj : j < l.length) :
    sampleAux l r 0 i = i + j := by
  induction l generalizing j i with
  | nil => simp at hj
  | cons p ps ih =>
      cases j with
      | zero =>
          have hp : p = 1 := by simpa using h1
          simp [sampleAux, hp, hr1]
      | succ j' =>
          have hp : p = 0 := by simpa using hz 0 (Nat.succ_pos j')
          have step1 : sampleAux (p :: ps) r 0 i = sampleAux ps r 0 (i + 1) := by
            rw [hp]
            simp only [sampleAux, add_zero]
            rw [if_neg (not_lt.mpr hr0)]
          rw [step1, ih j' (i + 1)
            (fun m hm => by simpa using hz (m + 1) (Nat.succ_lt_succ hm))
            (by simpa using h1) (by simpa using Nat.lt_of_succ_lt_succ hj)]
          omega

theorem sampleIndex_onehot (n b : Nat) (r : ℚ) (hb : b < n)
    (hr0 : 0 ≤ r) (hr1 : r < 1) :
    sampleIndex (assignAt n [b] 1) r = b := by
  have hz : ∀ m, m < b → (assignAt n [b] 1).getD m 0 = 0 := by
    intro m hm
    rw [assignAt_getD]
    have hno : ¬ (m < n ∧ m ∈ [b]) := by
      rintro ⟨-, hmem⟩
      exact absurd (List.mem_singleton.mp hmem) (Nat.ne_of_lt hm)
    rw [if_neg hno]
  have h1 : (assignAt n [b] 1).getD b 0 = 1 := by
    rw [assignAt_getD]
    simp [hb]
  have hj : b < (assignAt n [b] 1).length := by rw [assignAt_length]; exact hb
  have := sampleAux_onehot (assignAt n [b] 1) r b 0 hr0 hr1 hz h1 hj
  simpa using this

/-! ### The learn phase and the shapes of `step` -/

theorem tdTarget_fst (ag : QLearner) (ts : TimeStep) (info_state : StateKey)
    (legal_actions : List Nat) :
    (ag.tdTarget ts info_state legal_actions).1
      = if ts.is_last then ag.getActionReward ts
        else ag.getActionReward ts + ag.discount_factor *
          listMax (legal_actions.map
            (fun a => QTable.lookup ag.q_values info_state (some a))) := by
  cases hl : ts.is_last <;>
    simp [QLearner.tdTarget, hl, QTable.readAll_fst]

theorem tdTarget_lookup (ag : QLearner) (ts : TimeStep) (info_state : StateKey)
    (legal_actions : List Nat) (k : StateKey) (a : Option Nat) :
    QTable.lookup (ag.tdTarget ts info_state legal_actions).2 k a
      = QTable.lookup ag.q_values k a := by
  cases hl : ts.is_last <;>
    simp [QLearner.tdTarget, hl, QTable.readAll_lookup]

theorem learnUpdate_spec (ag : QLearner) (ts : TimeStep) (info_state : StateKey)
    (legal_actions : List Nat) (pk : StateKey)
    (hpk : ag.prev_info_state = some pk) :
    QTable.lookup (ag.learnUpdate ts info_state legal_actions).q_values pk ag.prev_action
        = QTable.lookup ag.q_values pk ag.prev_action
          + ag.step_size * ((ag.tdTarget ts info_state legal_actions).1
              - QTable.lookup ag.q_values pk ag.prev_action)
    ∧ (ag.learnUpdate ts info_state legal_actions).last_loss_value
        = some (QTable.lookup (ag.learnUpdate ts info_state legal_actions).q_values
              pk ag.prev_action
            - (ag.tdTarget ts info_state legal_actions).1)
    ∧ (∀ k a, ¬(k = pk ∧ a = ag.prev_action) →
        QTable.lookup (ag.learnUpdate ts info_state legal_actions).q_values k a
          = QTable.lookup ag.q_values k a)
    ∧ (ag.learnUpdate ts info_state legal_actions).epsilon = (ag.epsilon_schedule.step).1
    ∧ (ag.learnUpdate ts info_state legal_actions).epsilon_schedule
        = (ag.epsilon_schedule.step).2 := by
  have hget : ag.prev_info_state.getD [] = pk := by rw [hpk]; rfl
  refine ⟨?_, ?_, ?_, rfl, rfl⟩
  · simp only [QLearner.learnUpdate, hget]
    simp [QTable.read_lookup, QTable.write_self, QTable.read_fst, tdTarget_lookup]
  · simp only [QLearner.learnUpdate, hget]
    simp [QTable.read_lookup, QTable.read_fst]
  · intro k a hne
    simp only [QLearner.learnUpdate, hget]
    simp [QTable.read_lookup, QTable.write_other _ _ _ _ _ _ hne, tdTarget_lookup]

theorem epsilonGreedy_nil (num_actions : Nat) (q : QTable) (info_state : StateKey)
    (epsilon u r : ℚ) :
    epsilonGreedy num_actions q info_state [] epsilon u r = none := by
  by_cases hu : u < epsilon <;> simp [epsilonGreedy, hu]

theorem step_eval_terminal (ag : QLearner) (ts : TimeStep) (top1 : Bool) (u r : ℚ)
    (hlast : ts.is_last = true) :
    ag.step ts true top1 u r = some (some ⟨none, none⟩, ag) := by
  simp [QLearner.step, hlast]

theorem step_eval_nonterminal (ag : QLearner) (ts : TimeStep) (top1 : Bool) (u r : ℚ)
    (a : Nat) (p : List ℚ) (q1 : QTable) (hlast : ts.is_last = false)
    (heg : epsilonGreedy ag.num_actions ag.q_values
        (infoStateKey ag.centralized ts.observations_info_state ag.player_id)
        (ts.observations_legal_actions.getD ag.player_id []) 0 u r = some (a, p, q1)) :
    ag.step ts true top1 u r
      = some (some ⟨some (argmaxIdx p), some p⟩, { ag with q_values := q1 }) := by
  rw [List.getD_eq_getElem?_getD] at heg
  simp [QLearner.step, hlast, heg]

theorem step_eval_fail (ag : QLearner) (ts : TimeStep) (top1 : Bool) (u r : ℚ)
    (hlast : ts.is_last = false)
    (heg : epsilonGreedy ag.num_actions ag.q_values
        (infoStateKey ag.centralized ts.observations_info_state ag.player_id)
        (ts.observations_legal_actions.getD ag.player_id []) 0 u r = none) :
    ag.step ts true top1 u r = none := by
  rw [List.getD_eq_getElem?_getD] at heg
  simp [QLearner.step, hlast, heg]

theorem step_train_terminal_pending (ag : QLearner) (ts : TimeStep) (top1 : Bool)
    (u r : ℚ) (pk : StateKey) (hlast : ts.is_last = true)
    (hpk : ag.prev_info_state = some pk) :
    ag.step ts false top1 u r
      = some (none,
          { ag.learnUpdate ts
              (infoStateKey ag.centralized ts.observations_info_state ag.player_id)
              (ts.observations_legal_actions.getD ag.player_id []) with
            prev_info_state := none }) := by
  have hsome : ag.prev_info_state.isSome = true := by rw [hpk]; rfl
  simp [QLearner.step, hlast, hsome]

theorem step_train_nonterminal_pending (ag : QLearner) (ts : TimeStep) (top1 : Bool)
    (u r : ℚ) (pk : StateKey) (a : Nat) (p : List ℚ) (q1 : QTable)
    (hlast : ts.is_last = false) (hpk : ag.prev_info_state = some pk)
    (heg : epsilonGreedy ag.num_actions ag.q_values
        (infoStateKey ag.centralized ts.observations_info_state ag.player_id)
        (ts.observations_legal_actions.getD ag.player_id []) ag.epsilon u r
      = some (a, p, q1)) :
    ag.step ts false top1 u r
      = some (some ⟨some (if top1 then argmaxIdx p else a), some p⟩,
          { QLearner.learnUpdate { ag with q_values := q1 } ts
              (infoStateKey ag.centralized ts.observations_info_state ag.player_id)
              (ts.observations_legal_actions.getD ag.player_id []) with
            prev_info_state :=
              some (infoStateKey ag.centralized ts.observations_info_state ag.player_id)
            prev_action := some (if top1 then argmaxIdx p else a) }) := by
  have hsome : ag.prev_info_state.isSome = true := by rw [hpk]; rfl
  rw [List.getD_eq_getElem?_getD] at heg
  simp [QLearner.step, hlast, hsome, heg]

theorem step_train_nopending (ag : QLearner) (ts : TimeStep) (top1 : Bool)
    (u r : ℚ) (a : Nat) (p : List ℚ) (q1 : QTable)
    (hlast : ts.is_last = false) (hpk : ag.prev_info_state = none)
    (heg : epsilonGreedy ag.num_actions ag.q_values
        (infoStateKey ag.centralized ts.observations_info_state ag.player_id)
        (ts.observations_legal_actions.getD ag.player_id []) ag.epsilon u r
      = some (a, p, q1)) :
    ag.step ts false top1 u r
      = some (some ⟨some (if top1 then argmaxIdx p else a), some p⟩,
          { ag with q_values := q1
                    prev_info_state :=
                      some (infoStateKey ag.centralized ts.observations_info_state
                        ag.player_id)
                    prev_action := some (if top1 then argmaxIdx p else a) }) := by
  have hnone : ag.prev_info_state.isSome = false := by rw [hpk]; rfl
  rw [List.getD_eq_getElem?_getD] at heg
  simp [QLearner.step, hlast, hnone, heg]

theorem step_train_fail (ag : QLearner) (ts : TimeStep) (top1 : Bool) (u r : ℚ)
    (hlast : ts.is_last = false)
    (heg : epsilonGreedy ag.num_actions ag.q_values
        (infoStateKey ag.centralized ts.observations_info_state ag.player_id)
        (ts.observations_legal_actions.getD ag.player_id []) ag.epsilon u r = none) :
    ag.step ts false top1 u r = none := by
  rw [List.getD_eq_getElem?_getD] at heg
  simp [QLearner.step, hlast, heg]

/-! ### Claim C5 (corrected): the constructor performs no validation -/

/-- Schedule used by the C5 counterexample. -/
def schedC5 : Schedule := constantSchedule (1/5)

/-- C5 counterexample: constructing a QLearner with `step_size = -1` (≤ 0),
`num_actions = 0` (≤ 0) and `discount_factor = 2` (outside `[0,1]`) is not
rejected: `__init__` runs no validation and yields an agent that stores the
malformed values unchanged, so the claim that construction fails is false
at this input. -/
theorem c5_counterexample :
    (QLearner.init 0 0 (-1) schedC5 2 [] false).step_size = -1
    ∧ (QLearner.init 0 0 (-1) schedC5 2 [] false).num_actions = 0
    ∧ (QLearner.init 0 0 (-1) schedC5 2 [] false).discount_factor = 2 :=
  ⟨rfl, rfl, rfl⟩

/-- C5 amended: the constructor accepts every configuration, including
`step_size ≤ 0`, `num_actions ≤ 0` and a discount factor outside `[0,1]`;
it always produces an agent holding the given values unchanged, with an
empty value store, no pending transition and the schedule's current value
as its epsilon. -/
theorem c5_amended (player_id num_actions : Nat) (step_size discount_factor : ℚ)
    (sched : Schedule) (rules : List (List ℤ → ℚ)) (centralized : Bool) :
    (QLearner.init player_id num_actions step_size sched discount_factor rules
        centralized).player_id = player_id
    ∧ (QLearner.init player_id num_actions step_size sched discount_factor rules
        centralized).num_actions = num_actions
    ∧ (QLearner.init player_id num_actions step_size sched discount_factor rules
        centralized).step_size = step_size
    ∧ (QLearner.init player_id num_actions step_size sched discount_factor rules
        centralized).discount_factor = discount_factor
    ∧ (QLearner.init player_id num_actions step_size sched discount_factor rules
        centralized).epsilon = sched.value
    ∧ (QLearner.init player_id num_actions step_size sched discount_factor rules
        centralized).q_values = []
    ∧ (QLearner.init player_id num_actions step_size sched discount_factor rules
        centralized).prev_info_state = none
    ∧ (QLearner.init player_id num_actions step_size sched discount_factor rules
        centralized).prev_action = none :=
  ⟨rfl, rfl, rfl, rfl, rfl, rfl, rfl, rfl⟩

/-! ### Claim C8 (confirmed): centralized vs decentralized state keys -/

/-- C8: for two observation structures with identical slices for the owning
player but a differing slice for some other player, the state keys used by
`step` differ in centralized mode and coincide in decentralized mode. -/
theorem c8_state_keys (obs obs2 : List (List ℚ)) (player_id : Nat)
    (hown : obs.getD player_id [] = obs2.getD player_id [])
    (hother : ∃ j, j ≠ player_id ∧ obs.getD j [] ≠ obs2.getD j []) :
    infoStateKey true obs player_id ≠ infoStateKey true obs2 player_id
    ∧ infoStateKey false obs player_id = infoStateKey false obs2 player_id := by
  obtain ⟨j, -, hj⟩ := hother
  constructor
  · intro h
    simp only [infoStateKey, if_true] at h
    exact hj (by rw [h])
  · show [obs.getD player_id []] = [obs2.getD player_id []]
    rw [hown]

/-- C8 witness: two concrete observation structures agreeing for the owner
(player 0) and differing for player 1. -/
theorem c8_witness :
    infoStateKey true [[1], [2]] 0 ≠ infoStateKey true [[1], [3]] 0
    ∧ infoStateKey false [[1], [2]] 0 = infoStateKey false [[1], [3]] 0 :=
  c8_state_keys [[1], [2]] [[1], [3]] 0 rfl ⟨1, by decide, by decide⟩

/-! ### Claim C4 (confirmed): empty legal-action set is fatal -/

/-- C4: when an action is required (the call is non-terminal) and the
legal-action set is empty, the selector fails — Python raises, the model
returns `none` — and the failure is fatal for the whole `step` call, for
training and evaluation calls alike. -/
theorem c4_no_legal_actions (ag : QLearner) (ts : TimeStep)
    (is_evaluation top1 : Bool) (u r : ℚ) (hlast : ts.is_last = false)
    (hleg : ts.observations_legal_actions.getD ag.player_id [] = []) :
    epsilonGreedy ag.num_actions ag.q_values
        (infoStateKey ag.centralized ts.observations_info_state ag.player_id)
        (ts.observations_legal_actions.getD ag.player_id [])
        (if is_evaluation then 0 else ag.epsilon) u r = none
    ∧ ag.step ts is_evaluation top1 u r = none := by
  have hnil : ∀ eps, epsilonGreedy ag.num_actions ag.q_values
      (infoStateKey ag.centralized ts.observations_info_state ag.player_id)
      (ts.observations_legal_actions.getD ag.player_id []) eps u r = none := by
    intro eps
    rw [hleg]
    exact epsilonGreedy_nil _ _ _ _ _ _
  refine ⟨hnil _, ?_⟩
  cases is_evaluation with
  | false => exact step_train_fail ag ts top1 u r hlast (hnil ag.epsilon)
  | true => exact step_eval_fail ag ts top1 u r hlast (hnil 0)

/-- Concrete agent for the C4 witness. -/
def agC4 : QLearner := QLearner.init 0 3 (1/10) (constantSchedule (1/5)) 1 [] false

/-- Concrete non-terminal time step with an empty legal-action list. -/
def tsC4 : TimeStep := ⟨[[0]], [[]], some [0], false⟩

/-- C4 witness: the concrete training call with an empty legal set fails. -/
theorem c4_witness : agC4.step tsC4 false false (1/2) 0 = none :=
  (c4_no_legal_actions agC4 tsC4 false false (1/2) 0 rfl rfl).2

/-! ### Claim C2 (corrected): evaluation calls and agent state -/

/-- Concrete fresh agent for the C2 counterexample. -/
def agC2 : QLearner := QLearner.init 0 1 (1/10) (constantSchedule (1/5)) 1 [] false

/-- Concrete non-terminal time step for the C2 counterexample. -/
def tsC2 : TimeStep := ⟨[[5]], [[0]], none, false⟩

/-- C2 counterexample: an evaluation call at a fresh state is claimed to
leave every field identical, with `_q_values` gaining no entries; but the
greedy branch's `self._q_values[info_state][a]` reads are defaultdict
accesses that insert missing entries, so after this concrete evaluation
call the value store has gained an entry while it was empty before. -/
theorem c2_counterexample :
    (agC2.step tsC2 true false 1 0).map (fun res => res.2.q_values)
      = some [([[5]], [(some 0, 0)])]
    ∧ agC2.q_values = []
    ∧ ([([[5]], [(some 0, 0)])] : QTable) ≠ ([] : QTable) :=
  ⟨rfl, rfl, by decide⟩

/-- C2 amended: an evaluation call never changes epsilon, the schedule, the
pending transition or the recorded loss, and never changes the value of
any stored estimate (every lookup is unchanged); the only possible state
change is the insertion of default `0.0` entries by the greedy branch's
defaultdict reads. -/
theorem c2_amended (ag : QLearner) (ts : TimeStep) (top1 : Bool) (u r : ℚ)
    (out : Option StepOutput) (ag2 : QLearner)
    (hstep : ag.step ts true top1 u r = some (out, ag2)) :
    ag2.epsilon = ag.epsilon
    ∧ ag2.epsilon_schedule = ag.epsilon_schedule
    ∧ ag2.prev_info_state = ag.prev_info_state
    ∧ ag2.prev_action = ag.prev_action
    ∧ ag2.last_loss_value = ag.last_loss_value
    ∧ ∀ k a, QTable.lookup ag2.q_values k a = QTable.lookup ag.q_values k a := by
  cases hl : ts.is_last with
  | true =>
      rw [step_eval_terminal ag ts top1 u r hl] at hstep
      cases hstep
      exact ⟨rfl, rfl, rfl, rfl, rfl, fun k a => rfl⟩
  | false =>
      cases heg : epsilonGreedy ag.num_actions ag.q_values
          (infoStateKey ag.centralized ts.observations_info_state ag.player_id)
          (ts.observations_legal_actions.getD ag.player_id []) 0 u r with
      | none =>
          rw [step_eval_fail ag ts top1 u r hl heg] at hstep
          exact Option.noConfusion hstep
      | some res =>
          obtain ⟨a, p, q1⟩ := res
          rw [step_eval_nonterminal ag ts top1 u r a p q1 hl heg] at hstep
          cases hstep
          exact ⟨rfl, rfl, rfl, rfl, rfl, fun k a2 =>
            epsilonGreedy_lookup _ _ _ _ _ _ _ (a, p, q1) heg k a2⟩

/-- Concrete agent for the C2 amended witness. -/
def agC2w : QLearner := QLearner.init 1 2 (1/10) (constantSchedule (1/5)) 1 [] false

/-- Concrete non-terminal evaluation time step for the C2 amended witness. -/
def tsC2w : TimeStep := ⟨[[1], [2]], [[0], [1]], some [0, 0], false⟩

/-- Result of the concrete evaluation call of the C2 amended witness. -/
def resC2w : Option StepOutput × QLearner :=
  (agC2w.step tsC2w true false 1 0).getD (none, agC2w)

/-- C2 amended witness: the concrete evaluation call keeps epsilon, the
pending transition and a sample lookup unchanged. -/
theorem c2_amended_witness :
    resC2w.2.epsilon = agC2w.epsilon
    ∧ resC2w.2.prev_info_state = agC2w.prev_info_state
    ∧ QTable.lookup resC2w.2.q_values [[2]] (some 1)
        = QTable.lookup agC2w.q_values [[2]] (some 1) := by
  have h := c2_amended agC2w tsC2w false 1 0 resC2w.1 resC2w.2 rfl
  exact ⟨h.1, h.2.2.1, h.2.2.2.2.2 [[2]] (some 1)⟩

/-! ### Claim C3 (confirmed): shape of the probability vector -/

/-- C3: for a non-empty duplicate-free legal-action list inside the action
range and any epsilon in `[0,1]`, the probability vector produced by the
selector has length `num_actions`, sums to `1` and is `0` outside the
legal set; the exploration branch gives every legal action `1/|legal|` and
the greedy branch gives exactly one legal action probability `1`. -/
theorem c3_action_probs
    (num_actions : Nat) (q : QTable) (info_state : StateKey)
    (legal_actions : List Nat) (epsilon u r : ℚ)
    (act : Nat) (probs : List ℚ) (q1 : QTable)
    (hne : legal_actions ≠ []) (hnd : legal_actions.Nodup)
    (hsub : ∀ a ∈ legal_actions, a < num_actions)
    (heps0 : 0 ≤ epsilon) (heps1 : epsilon ≤ 1)
    (h : epsilonGreedy num_actions q info_state legal_actions epsilon u r
      = some (act, probs, q1)) :
    probs.length = num_actions
    ∧ probs.sum = 1
    ∧ (∀ i, i ∉ legal_actions → probs.getD i 0 = 0)
    ∧ (u < epsilon →
        ∀ a ∈ legal_actions, probs.getD a 0 = 1 / (legal_actions.length : ℚ))
    ∧ (epsilon ≤ u → ∃ b ∈ legal_actions, probs.getD b 0 = 1
        ∧ ∀ c ∈ legal_actions, c ≠ b → probs.getD c 0 = 0) := by
  unfold epsilonGreedy at h
  by_cases hu : u < epsilon
  · rw [if_pos hu] at h
    cases legal_actions with
    | nil => exact absurd rfl hne
    | cons a0 rest =>
        simp only [Option.some.injEq, Prod.mk.injEq] at h
        obtain ⟨-, hp, -⟩ := h
        subst hp
        have hlen0 : ((a0 :: rest).length : ℚ) ≠ 0 := by
          rw [Nat.cast_ne_zero]
          simp
        refine ⟨assignAt_length _ _ _, ?_, ?_, ?_, ?_⟩
        · rw [assignAt_sum _ _ _ hnd hsub, mul_one_div, div_self hlen0]
        · intro i hi
          have hcond : ¬ (i < num_actions ∧ i ∈ a0 :: rest) := fun hc => hi hc.2
          rw [assignAt_getD, if_neg hcond]
        · intro hexp a ha
          rw [assignAt_getD, if_pos ⟨hsub a ha, ha⟩]
        · intro hle
          exact absurd hu (not_lt.mpr hle)
  · rw [if_neg hu] at h
    cases legal_actions with
    | nil => exact absurd rfl hne
    | cons a0 rest =>
        simp only [Option.some.injEq, Prod.mk.injEq] at h
        obtain ⟨-, hp, -⟩ := h
        subst hp
        have hvals : (QTable.readAll q info_state (a0 :: rest)).1
            = (a0 :: rest).map (fun a => QTable.lookup q info_state (some a)) :=
          QTable.readAll_fst _ _ _
        have hvne : (QTable.readAll q info_state (a0 :: rest)).1 ≠ [] := by
          rw [hvals]; simp
        have hmaxmem : listMax (QTable.readAll q info_state (a0 :: rest)).1
            ∈ (QTable.readAll q info_state (a0 :: rest)).1 :=
          listMax_mem _ hvne
        have hidx : argmaxIdx (QTable.readAll q info_state (a0 :: rest)).1
            < (QTable.readAll q info_state (a0 :: rest)).1.length :=
          firstIdx_lt_length _ _ hmaxmem
        have hlen : (QTable.readAll q info_state (a0 :: rest)).1.length
            = (a0 :: rest).length := by
          rw [hvals, List.length_map]
        have hbestmem :
            (a0 :: rest).getD (argmaxIdx (QTable.readAll q info_state (a0 :: rest)).1) 0
              ∈ (a0 :: rest) :=
          getD_mem _ _ _ (hlen ▸ hidx)
        have hbestn :
            (a0 :: rest).getD (argmaxIdx (QTable.readAll q info_state (a0 :: rest)).1) 0
              < num_actions := hsub _ hbestmem
        refine ⟨assignAt_length _ _ _, ?_, ?_, ?_, ?_⟩
        · rw [assignAt_sum _ _ _ (List.nodup_singleton _)
            (by intro a ha; rw [List.mem_singleton] at ha; exact ha ▸ hbestn)]
          simp
        · intro i hi
          rw [assignAt_getD]
          have : ¬ (i < num_actions
              ∧ i ∈ [(a0 :: rest).getD
                  (argmaxIdx (QTable.readAll q info_state (a0 :: rest)).1) 0]) := by
            rintro ⟨-, hmem⟩
            exact hi (by rw [List.mem_singleton.mp hmem]; exact hbestmem)
          rw [if_neg this]
        · intro hlt
          exact absurd hlt hu
        · intro hgr2
          refine ⟨(a0 :: rest).getD
              (argmaxIdx (QTable.readAll q info_state (a0 :: rest)).1) 0,
            hbestmem, ?_, ?_⟩
          · rw [assignAt_getD, if_pos ⟨hbestn, List.mem_singleton_self _⟩]
          · intro c hcmem hc
            rw [assignAt_getD]
            have : ¬ (c < num_actions
                ∧ c ∈ [(a0 :: rest).getD
                    (argmaxIdx (QTable.readAll q info_state (a0 :: rest)).1) 0]) := by
              rintro ⟨-, hmem⟩
              exact hc (List.mem_singleton.mp hmem)
            rw [if_neg this]

/-- Result of the concrete exploration call of the C3 witness. -/
def resC3 : Nat × List ℚ × QTable :=
  (epsilonGreedy 3 [] [[0]] [0, 2] 1 0 0).getD (0, [], [])

/-- C3 witness: a concrete exploration call with legal actions `[0, 2]`
out of three actions: length 3, total mass 1, zero on the illegal action
and `1/2` on a legal one. -/
theorem c3_witness :
    resC3.2.1.length = 3 ∧ resC3.2.1.sum = 1 ∧ resC3.2.1.getD 1 0 = 0
    ∧ resC3.2.1.getD 0 0 = 1 / 2 := by
  have h := c3_action_probs 3 [] [[0]] [0, 2] 1 0 0 resC3.1 resC3.2.1 resC3.2.2
    (by decide) (by decide) (by decide) (by norm_num) (by norm_num) rfl
  refine ⟨h.1, h.2.1, h.2.2.1 1 (by decide), ?_⟩
  have h4 := h.2.2.2.1 (by norm_num) 0 (by decide)
  simpa using h4

/-! ### Claim C9 (confirmed): deterministic first-maximum tie-breaking -/

/-- In the greedy branch the selected action is the `best_action` computed
from `np.argmax` over the stored estimates of the legal actions. -/
theorem epsilonGreedy_greedy_eq
    (num_actions : Nat) (q : QTable) (info_state : StateKey)
    (legal_actions : List Nat) (epsilon u r : ℚ)
    (act : Nat) (probs : List ℚ) (q1 : QTable)
    (hne : legal_actions ≠ []) (hsub : ∀ a ∈ legal_actions, a < num_actions)
    (hgr : epsilon ≤ u) (hr0 : 0 ≤ r) (hr1 : r < 1)
    (h : epsilonGreedy num_actions q info_state legal_actions epsilon u r
      = some (act, probs, q1)) :
    act = legal_actions.getD
      (argmaxIdx (legal_actions.map (fun a => QTable.lookup q info_state (some a)))) 0 := by
  unfold epsilonGreedy at h
  rw [if_neg (not_lt.mpr hgr)] at h
  cases legal_actions with
  | nil => exact absurd rfl hne
  | cons a0 rest =>
      simp only [Option.some.injEq, Prod.mk.injEq] at h
      obtain ⟨hact, -, -⟩ := h
      have hvals : (QTable.readAll q info_state (a0 :: rest)).1
          = (a0 :: rest).map (fun a => QTable.lookup q info_state (some a)) :=
        QTable.readAll_fst _ _ _
      have hvne : (QTable.readAll q info_state (a0 :: rest)).1 ≠ [] := by
        rw [hvals]; simp
      have hidx : argmaxIdx (QTable.readAll q info_state (a0 :: rest)).1
          < (QTable.readAll q info_state (a0 :: rest)).1.length :=
        firstIdx_lt_length _ _ (listMax_mem _ hvne)
      have hlen : (QTable.readAll q info_state (a0 :: rest)).1.length
          = (a0 :: rest).length := by rw [hvals, List.length_map]
      have hbestmem :
          (a0 :: rest).getD (argmaxIdx (QTable.readAll q info_state (a0 :: rest)).1) 0
            ∈ (a0 :: rest) := getD_mem _ _ _ (hlen ▸ hidx)
      rw [← hact, sampleIndex_onehot num_actions _ r (hsub _ hbestmem) hr0 hr1, hvals]

/-- C9: whenever the greedy branch is taken (in particular on every
evaluation call, where epsilon is 0 and the uniform draw is at least 0),
the selected action is the first action in legal-action enumeration order
whose stored estimate is maximal, and a repeated greedy call on the store
left by the first call returns the same action. -/
theorem c9_greedy_tiebreak
    (num_actions : Nat) (q : QTable) (info_state : StateKey)
    (legal_actions : List Nat) (epsilon u r : ℚ)
    (act : Nat) (probs : List ℚ) (q1 : QTable)
    (hne : legal_actions ≠ []) (hsub : ∀ a ∈ legal_actions, a < num_actions)
    (hgr : epsilon ≤ u) (hr0 : 0 ≤ r) (hr1 : r < 1)
    (h : epsilonGreedy num_actions q info_state legal_actions epsilon u r
      = some (act, probs, q1)) :
    (∃ i, i < legal_actions.length ∧ act = legal_actions.getD i 0
      ∧ (∀ b ∈ legal_actions,
          QTable.lookup q info_state (some b) ≤ QTable.lookup q info_state (some act))
      ∧ (∀ m, m < i → QTable.lookup q info_state (some (legal_actions.getD m 0))
          < QTable.lookup q info_state (some act)))
    ∧ (∀ epsilon2 u2 r2 act2 probs2 q2, epsilon2 ≤ u2 → 0 ≤ r2 → r2 < 1 →
        epsilonGreedy num_actions q1 info_state legal_actions epsilon2 u2 r2
          = some (act2, probs2, q2) → act2 = act) := by
  have hact := epsilonGreedy_greedy_eq num_actions q info_state legal_actions
    epsilon u r act probs q1 hne hsub hgr hr0 hr1 h
  constructor
  · refine ⟨argmaxIdx (legal_actions.map
        (fun a => QTable.lookup q info_state (some a))), ?_, hact, ?_, ?_⟩
    · have hvne : legal_actions.map (fun a => QTable.lookup q info_state (some a)) ≠ [] := by
        cases legal_actions with
        | nil => exact absurd rfl hne
        | cons a0 rest => simp
      have hidx := firstIdx_lt_length _ _ (listMax_mem _ hvne)
      rwa [List.length_map] at hidx
    · intro b hb
      have hvne : legal_actions.map (fun a => QTable.lookup q info_state (some a)) ≠ [] := by
        cases legal_actions with
        | nil => exact absurd rfl hne
        | cons a0 rest => simp
      have hidx := firstIdx_lt_length _ _ (listMax_mem _ hvne)
      have hmax := getD_firstIdx _ _ (listMax_mem _ hvne)
      have hltlen : argmaxIdx (legal_actions.map
          (fun a => QTable.lookup q info_state (some a))) < legal_actions.length := by
        rwa [List.length_map] at hidx
      have hactval : QTable.lookup q info_state (some act)
          = listMax (legal_actions.map (fun a => QTable.lookup q info_state (some a))) := by
        rw [hact]
        have hmv := getD_map_at legal_actions
          (fun a => QTable.lookup q info_state (some a)) _ hltlen
        exact hmv.symm.trans hmax
      rw [hactval]
      exact le_listMax _ _ (List.mem_map_of_mem _ hb)
    · intro m hm
      have hvne : legal_actions.map (fun a => QTable.lookup q info_state (some a)) ≠ [] := by
        cases legal_actions with
        | nil => exact absurd rfl hne
        | cons a0 rest => simp
      have hidx := firstIdx_lt_length _ _ (listMax_mem _ hvne)
      have hmax := getD_firstIdx _ _ (listMax_mem _ hvne)
      have hltlen : argmaxIdx (legal_actions.map
          (fun a => QTable.lookup q info_state (some a))) < legal_actions.length := by
        rwa [List.length_map] at hidx
      have hactval : QTable.lookup q info_state (some act)
          = listMax (legal_actions.map (fun a => QTable.lookup q info_state (some a))) := by
        rw [hact]
        have hmv := getD_map_at legal_actions
          (fun a => QTable.lookup q info_state (some a)) _ hltlen
        exact hmv.symm.trans hmax
      have hmlen : m < legal_actions.length := lt_trans hm hltlen
      have hval : (legal_actions.map (fun a => QTable.lookup q info_state (some a))).getD m 0
          = QTable.lookup q info_state (some (legal_actions.getD m 0)) :=
        getD_map_at _ _ _ hmlen
      have hmm : m < (legal_actions.map
          (fun a => QTable.lookup q info_state (some a))).length := by
        rwa [List.length_map]
      have hne2 := firstIdx_first _ _ m hm
      have hle2 := le_listMax _ _ (getD_mem _ m (0 : ℚ) hmm)
      rw [hactval, ← hval]
      exact lt_of_le_of_ne hle2 hne2
  · intro epsilon2 u2 r2 act2 probs2 q2 hgr2 hr02 hr12 h2
    have hact2 := epsilonGreedy_greedy_eq num_actions q1 info_state legal_actions
      epsilon2 u2 r2 act2 probs2 q2 hne hsub hgr2 hr02 hr12 h2
    have hqeq : (fun a => QTable.lookup q1 info_state (some a))
        = (fun a => QTable.lookup q info_state (some a)) := by
      funext a
      exact epsilonGreedy_lookup num_actions q info_state legal_actions epsilon u r
        (act, probs, q1) h info_state (some a)
    rw [hact2, hqeq, ← hact]

/-- Store for the C9 witness: action 0 has estimate 1, actions 1 and 2 tie
at the maximal estimate 2. -/
def qC9 : QTable := [([[2]], [(some 0, 1), (some 1, 2), (some 2, 2)])]

/-- Result of the first concrete greedy call of the C9 witness. -/
def resC9 : Nat × List ℚ × QTable :=
  (epsilonGreedy 3 qC9 [[2]] [0, 1, 2] 0 0 0).getD (0, [], [])

/-- Result of the repeated concrete greedy call of the C9 witness. -/
def resC9b : Nat × List ℚ × QTable :=
  (epsilonGreedy 3 resC9.2.2 [[2]] [0, 1, 2] 0 0 0).getD (0, [], [])

/-- C9 witness: on the tie between actions 1 and 2 the concrete greedy
call picks action 1 (the first maximal action), its estimate dominates
action 0's, and the repeated call returns the same action. -/
theorem c9_witness :
    QTable.lookup qC9 [[2]] (some 0) ≤ QTable.lookup qC9 [[2]] (some resC9.1)
    ∧ resC9.1 = 1
    ∧ resC9b.1 = resC9.1 := by
  have h := c9_greedy_tiebreak 3 qC9 [[2]] [0, 1, 2] 0 0 0 resC9.1 resC9.2.1 resC9.2.2
    (by decide) (by decide) (by norm_num) (by norm_num) (by norm_num) rfl
  obtain ⟨⟨i, -, -, hle, -⟩, hdet⟩ := h
  refine ⟨hle 0 (by decide), ?_, hdet 0 0 0 resC9b.1 resC9b.2.1 resC9b.2.2 (by norm_num)
    (by norm_num) (by norm_num) rfl⟩
  norm_num [resC9, epsilonGreedy, qC9, QTable.readAll, QTable.read, QTable.lookup,
    outerRead, innerRead, outerWrite, outerLookup, innerLookup, argmaxIdx, listMax,
    firstIdx, assignAt, sampleIndex, sampleAux, List.range_succ]

/-! ### Claim C1 (confirmed): the TD update -/

/-- C1: on every training call to `step` with a pending transition
(prior key, prior action), the TD target is the shaped reward at a
terminal time step and otherwise the shaped reward plus `discount_factor`
times the maximum stored estimate over the current state's legal actions
(missing entries default to 0.0); the entry at (prior key, prior action)
is overwritten with `old + step_size * (target - old)`; the recorded loss
equals (new estimate - target). The particular scenario
(step_size 0.5, discount 1, initial estimate 0, terminal reward 1, no
shaping, new estimate 0.5, loss -0.5) is the witness. -/
theorem c1_td_update (ag : QLearner) (ts : TimeStep) (top1 : Bool) (u r : ℚ)
    (pk : StateKey) (pa : Nat) (out : Option StepOutput) (ag2 : QLearner)
    (hpk : ag.prev_info_state = some pk) (hpa : ag.prev_action = some pa)
    (hstep : ag.step ts false top1 u r = some (out, ag2)) :
    QTable.lookup ag2.q_values pk (some pa)
      = QTable.lookup ag.q_values pk (some pa)
        + ag.step_size *
          ((if ts.is_last then ag.getActionReward ts
            else ag.getActionReward ts + ag.discount_factor *
              listMax ((ts.observations_legal_actions.getD ag.player_id []).map
                (fun a => QTable.lookup ag.q_values
                  (infoStateKey ag.centralized ts.observations_info_state ag.player_id)
                  (some a))))
            - QTable.lookup ag.q_values pk (some pa))
    ∧ ag2.last_loss_value
      = some (QTable.lookup ag2.q_values pk (some pa)
          - (if ts.is_last then ag.getActionReward ts
             else ag.getActionReward ts + ag.discount_factor *
               listMax ((ts.observations_legal_actions.getD ag.player_id []).map
                 (fun a => QTable.lookup ag.q_values
                   (infoStateKey ag.centralized ts.observations_info_state ag.player_id)
                   (some a))))) := by
  cases hl : ts.is_last with
  | true =>
      rw [step_train_terminal_pending ag ts top1 u r pk hl hpk] at hstep
      cases hstep
      have hs := learnUpdate_spec ag ts
        (infoStateKey ag.centralized ts.observations_info_state ag.player_id)
        (ts.observations_legal_actions.getD ag.player_id []) pk hpk
      rw [tdTarget_fst, hpa] at hs
      simp only [hl, if_true] at hs ⊢
      exact ⟨hs.1, hs.2.1⟩
  | false =>
      cases heg : epsilonGreedy ag.num_actions ag.q_values
          (infoStateKey ag.centralized ts.observations_info_state ag.player_id)
          (ts.observations_legal_actions.getD ag.player_id []) ag.epsilon u r with
      | none =>
          rw [step_train_fail ag ts top1 u r hl heg] at hstep
          exact Option.noConfusion hstep
      | some res =>
          obtain ⟨a, p, q1⟩ := res
          rw [step_train_nonterminal_pending ag ts top1 u r pk a p q1 hl hpk heg]
            at hstep
          cases hstep
          have hq : ∀ k b, QTable.lookup q1 k b = QTable.lookup ag.q_values k b :=
            fun k b => epsilonGreedy_lookup _ _ _ _ _ _ _ (a, p, q1) heg k b
          have hs := learnUpdate_spec { ag with q_values := q1 } ts
            (infoStateKey ag.centralized ts.observations_info_state ag.player_id)
            (ts.observations_legal_actions.getD ag.player_id []) pk hpk
          rw [tdTarget_fst] at hs
          simp only [hpa, hq, hl, if_false] at hs ⊢
          exact ⟨hs.1, hs.2.1⟩

/-- Agent for the C1 witness: step_size 1/2, discount 1, no shaping, a
pending transition at key `[[9]]` with action 2 and no stored estimate. -/
def agC1 : QLearner :=
  { QLearner.init 0 3 (1/2) (constantSchedule (1/5)) 1 [] false with
    prev_info_state := some [[9]], prev_action := some 2 }

/-- Terminal time step with environment reward 1 for the C1 witness. -/
def tsC1 : TimeStep := ⟨[[0]], [[]], some [1], true⟩

/-- Result of the concrete training call of the C1 witness. -/
def resC1 : Option StepOutput × QLearner :=
  (agC1.step tsC1 false false 1 0).getD (none, agC1)

/-- C1 witness: the TD-update scenario of the spec — step_size 0.5,
discount 1, initial estimate 0, terminal reward 1, no shaping — yields
updated estimate 0.5 and loss metric -0.5. -/
theorem c1_witness :
    QTable.lookup resC1.2.q_values [[9]] (some 2) = 1/2
    ∧ resC1.2.last_loss_value = some (-(1/2)) := by
  have h := c1_td_update agC1 tsC1 false 1 0 [[9]] 2 resC1.1 resC1.2 rfl rfl rfl
  constructor
  · rw [h.1]
    norm_num [agC1, tsC1, QLearner.init, QLearner.getActionReward, QTable.lookup,
      outerLookup, innerLookup]
  · rw [h.2, h.1]
    norm_num [agC1, tsC1, QLearner.init, QLearner.getActionReward, QTable.lookup,
      outerLookup, innerLookup]

/-! ### Claim C7 (corrected): the terminal learning step -/

/-- Agent for the C7 counterexample: a pending transition with action 1. -/
def agC7 : QLearner :=
  { QLearner.init 0 2 (1/2) (constantSchedule (1/5)) 1 [] false with
    prev_info_state := some [[7]], prev_action := some 1 }

/-- Terminal time step for the C7 counterexample. -/
def tsC7 : TimeStep := ⟨[[7]], [[]], some [1], true⟩

/-- Result of the concrete terminal training call used by C7. -/
def resC7 : Option StepOutput × QLearner :=
  (agC7.step tsC7 false false 1 0).getD (none, agC7)

/-- C7 counterexample: at a terminal training call with a pending
transition, the claim says the call returns a step result whose action
and probability vector are both none, and that both prior key and prior
action are cleared. In fact the Python function returns bare `None` — no
step result at all (`isSome = false` on the model's result) — and
`_prev_action` keeps its old value `some 1`; only `_prev_info_state` is
cleared. -/
theorem c7_counterexample :
    (agC7.step tsC7 false false 1 0).map
        (fun res => (res.1.isSome, res.2.prev_action, res.2.prev_info_state))
      = some (false, some 1, none)
    ∧ (some 1 : Option Nat) ≠ none := ⟨rfl, by decide⟩

/-- C7 amended: on a terminal training call with a pending transition, the
TD update is applied at (prior key, prior action) with the shaped reward
as target, the schedule is advanced exactly once, no other value-store
entry changes, the prior key is cleared — the prior action is left in
place, the cleared key alone marking the transition consumed — and the
call returns no step result at all. -/
theorem c7_amended (ag : QLearner) (ts : TimeStep) (top1 : Bool) (u r : ℚ)
    (pk : StateKey) (pa : Nat) (out : Option StepOutput) (ag2 : QLearner)
    (hlast : ts.is_last = true) (hpk : ag.prev_info_state = some pk)
    (hpa : ag.prev_action = some pa)
    (hstep : ag.step ts false top1 u r = some (out, ag2)) :
    out = none
    ∧ ag2.prev_info_state = none
    ∧ ag2.prev_action = some pa
    ∧ ag2.epsilon = (ag.epsilon_schedule.step).1
    ∧ ag2.epsilon_schedule = (ag.epsilon_schedule.step).2
    ∧ QTable.lookup ag2.q_values pk (some pa)
        = QTable.lookup ag.q_values pk (some pa)
          + ag.step_size * (ag.getActionReward ts
              - QTable.lookup ag.q_values pk (some pa))
    ∧ (∀ k b, ¬(k = pk ∧ b = some pa) →
        QTable.lookup ag2.q_values k b = QTable.lookup ag.q_values k b) := by
  rw [step_train_terminal_pending ag ts top1 u r pk hlast hpk] at hstep
  cases hstep
  have hs := learnUpdate_spec ag ts
    (infoStateKey ag.centralized ts.observations_info_state ag.player_id)
    (ts.observations_legal_actions.getD ag.player_id []) pk hpk
  rw [tdTarget_fst, hpa] at hs
  simp only [hlast, if_true] at hs
  exact ⟨rfl, rfl, hpa, hs.2.2.2.1, hs.2.2.2.2, hs.1, hs.2.2.1⟩

/-- C7 amended witness: the concrete terminal training call returns no
step result, clears only the prior key, keeps the prior action, and the
updated entry carries the TD value 1/2. -/
theorem c7_witness :
    resC7.1 = none
    ∧ resC7.2.prev_info_state = none
    ∧ resC7.2.prev_action = some 1
    ∧ QTable.lookup resC7.2.q_values [[7]] (some 1) = 1/2 := by
  have h := c7_amended agC7 tsC7 false 1 0 [[7]] 1 resC7.1 resC7.2 rfl rfl rfl rfl
  refine ⟨h.1, h.2.1, h.2.2.1, ?_⟩
  rw [h.2.2.2.2.2.1]
  norm_num [agC7, tsC7, QLearner.init, QLearner.getActionReward, QTable.lookup,
    outerLookup, innerLookup]

/-- With no reward vector, `_get_action_reward` returns 0 immediately. -/
theorem getActionReward_none (ag : QLearner) (ts : TimeStep)
    (hr : ts.rewards = none) : ag.getActionReward ts = 0 := by
  simp [QLearner.getActionReward, hr]

/-- With a reward vector present, `_get_action_reward` returns the
player's environment reward plus the rule sum over the slice of player
0's observation vector selected by the agent's player id. -/
theorem getActionReward_some (ag : QLearner) (ts : TimeStep) (rs : List ℚ)
    (hr : ts.rewards = some rs) :
    ag.getActionReward ts
      = rs.getD ag.player_id 0
        + (ag.rules.map (fun rule =>
            rule ((if ag.player_id = 0
                then ((ts.observations_info_state.getD 0 []).drop 9).take 9
                else (ts.observations_info_state.getD 0 []).drop 18).map
              ratTrunc))).foldl (· + ·) 0 := by
  cases hrul : ag.rules with
  | nil => simp [QLearner.getActionReward, hr, hrul]
  | cons rule0 rest => simp [QLearner.getActionReward, hr, hrul]

/-! ### Claim C6 (corrected): reward shaping and absent rewards -/

/-- Agent for the C6 counterexample: one reward rule that always pays 5. -/
def agC6 : QLearner :=
  QLearner.init 0 3 (1/10) (constantSchedule (1/5)) 1 [fun _ => 5] false

/-- Time step with an absent reward vector for the C6 counterexample. -/
def tsC6 : TimeStep := ⟨[[]], [[]], none, true⟩

/-- C6 counterexample: with rewards absent, the claim says the total fed
to the update is 0 (the absent environment reward) plus the rule sum, 5
here; but `_get_action_reward` returns 0.0 immediately when
`time_step.rewards is None`, skipping the rules entirely. -/
theorem c6_counterexample :
    agC6.getActionReward tsC6 = 0
    ∧ (agC6.rules.map (fun rule =>
        rule ((((tsC6.observations_info_state.getD 0 []).drop 9).take 9).map
          ratTrunc))).foldl (· + ·) 0 = 5
    ∧ (0 : ℚ) ≠ 0 + 5 := by
  refine ⟨rfl, by norm_num [agC6, QLearner.init], by norm_num⟩

/-- C6 amended: when the environment reports rewards, the total reward fed
to the TD update is the player's environment reward plus the sum of every
configured rule applied to the local board slice, on every learning step
including non-terminal ones; when the environment reports no rewards the
total is 0 and the rules are not applied. -/
theorem c6_amended (ag : QLearner) (ts : TimeStep) :
    (ts.rewards = none → ag.getActionReward ts = 0)
    ∧ (∀ rs, ts.rewards = some rs →
        ag.getActionReward ts
          = rs.getD ag.player_id 0
            + (ag.rules.map (fun rule =>
                rule ((if ag.player_id = 0
                    then ((ts.observations_info_state.getD 0 []).drop 9).take 9
                    else (ts.observations_info_state.getD 0 []).drop 18).map
                  ratTrunc))).foldl (· + ·) 0) := by
  exact ⟨fun hr => getActionReward_none ag ts hr,
    fun rs hr => getActionReward_some ag ts rs hr⟩

/-- Agent for the C6 amended witness: player 0 with a constant rule. -/
def agC6w : QLearner :=
  QLearner.init 0 3 (1/10) (constantSchedule (1/5)) 1 [fun _ => 5] false

/-- Time step carrying a reward vector for the C6 amended witness. -/
def tsC6w : TimeStep := ⟨[[]], [[]], some [3], false⟩

/-- C6 amended witness: with rewards present the fed total is the
environment reward 3 plus the rule bonus 5; with rewards absent it is 0. -/
theorem c6_witness :
    agC6w.getActionReward tsC6w = 8
    ∧ agC6w.getActionReward tsC6 = 0 := by
  constructor
  · have h := (c6_amended agC6w tsC6w).2 [3] rfl
    rw [h]
    norm_num [agC6w, QLearner.init]
  · exact (c6_amended agC6w tsC6).1 rfl

/-! ### Claim C10 (confirmed): the board fed to reward rules -/

/-- C10: on every learning call with rules configured and a present reward
vector, the board passed to every rule is a slice of player 0's
observation vector — indices 9..17 when the agent is player 0 and indices
18 onward otherwise — regardless of which player the agent is; the result
never depends on any other player's observation vector. -/
theorem c10_board_from_player0 (ag : QLearner) (ts ts2 : TimeStep) (rs : List ℚ)
    (hr : ts.rewards = some rs) (hrules : ag.rules ≠ []) :
    ag.getActionReward ts
      = rs.getD ag.player_id 0
        + (ag.rules.map (fun rule =>
            rule ((if ag.player_id = 0
                then ((ts.observations_info_state.getD 0 []).drop 9).take 9
                else (ts.observations_info_state.getD 0 []).drop 18).map
              ratTrunc))).foldl (· + ·) 0
    ∧ (ts2.rewards = ts.rewards →
        ts2.observations_info_state.getD 0 [] = ts.observations_info_state.getD 0 [] →
        ag.getActionReward ts2 = ag.getActionReward ts) := by
  have hform := getActionReward_some ag ts rs hr
  refine ⟨hform, ?_⟩
  intro hr2 hobs2
  have hform2 := getActionReward_some ag ts2 rs (by rw [hr2, hr])
  rw [hform, hform2, hobs2]

/-- Agent for the C10 witness: player 1 with a rule measuring slice length. -/
def agC10 : QLearner :=
  QLearner.init 1 9 (1/10) (constantSchedule (1/5)) 1
    [fun b => (b.length : ℚ)] false

/-- Time step for the C10 witness: player 0's observation vector has 20
entries (so the player-1 slice `[18:]` has 2 entries). -/
def tsC10 : TimeStep :=
  ⟨[[0, 0, 0, 0, 0, 0, 0, 0, 0, 1, 1, 1, 1, 1, 1, 1, 1, 1, 2, 3], [9]],
    [[0], [0]], some [0, 7], false⟩

/-- Same rewards and player-0 observation vector as `tsC10` but a changed
player-1 observation vector. -/
def tsC10b : TimeStep :=
  ⟨[[0, 0, 0, 0, 0, 0, 0, 0, 0, 1, 1, 1, 1, 1, 1, 1, 1, 1, 2, 3], [4, 4]],
    [[0], [0]], some [0, 7], false⟩

/-- C10 witness: the player-1 agent's shaped reward is its environment
reward 7 plus the rule value 2 (the length of player 0's `[18:]` slice),
and changing player 1's own observation vector does not change it. -/
theorem c10_witness :
    agC10.getActionReward tsC10 = 9
    ∧ agC10.getActionReward tsC10b = agC10.getActionReward tsC10 := by
  have h := c10_board_from_player0 agC10 tsC10 tsC10b [0, 7] rfl
    (by simp [agC10, QLearner.init])
  constructor
  · rw [h.1]
    norm_num [agC10, tsC10, QLearner.init]
  · exact h.2 rfl rfl

end TabularQ
